import Mathlib

/-!
Verification development for the `ABLPostProcessingAlgorithm` class of the
Nalu repository (header `include/ABLPostProcessingAlgorithm.h`).

The repository ships only the class declaration; the member-function bodies
(`load`, `setup`, `initialize`, `execute`, `eval_vel_mean`, `eval_temp_mean`,
`determine_part_names`, `calc_stats`, `calc_utau`) are not part of the
sources, so every operation below is a shallow embedding modelled from the
design specification, faithful to its words.  Machine doubles are modelled by
exact rationals `ℚ`; the distributed-mesh collaborators (field transfer,
area-weighted reduction) are modelled by explicit per-plane sample lists
carrying the element area used as reduction weight.
-/

namespace ABLPost

/-- Modelled from the spec: the parsed `abl_postprocessing` configuration block
(§6 of the design).  `heights` and `tempHeights` are the user-supplied
elevation lists in insertion order; `generateParts` is the flag allowing
automatic plane generation when a named partition is absent. -/
structure Config where
  searchMethod : String
  searchTolerance : ℚ
  searchExpansionFactor : ℚ
  fromTargetParts : List String
  partFmt : String
  heights : List ℚ
  tempHeights : List ℚ
  outputFreq : Nat
  outFileFmt : String
  generateParts : Bool
  quadVertices : List (List ℚ)
  nx : Nat
  ny : Nat
deriving Repr, DecidableEq, Inhabited

/-- Modelled from the spec: the mesh database visible to `setup`, reduced to
the set of partition names that exist (the only aspect `determine_part_names`
and the source-part check consult). -/
structure MeshDB where
  partNames : List String
deriving Repr, DecidableEq, Inhabited

/-- Modelled from the spec: one sample of the transferred fields on a plane
(or wall) partition: element `area` (the reduction weight of the area-weighted
mean), transferred `vel`ocity components, `temp`erature, and the 6 symmetric
sub-filter-scale stress components.  Wall samples reuse the same record; their
`temp`/`sfs` entries are ignored by `calc_utau`. -/
structure Sample where
  area : ℚ
  vel : List ℚ
  temp : ℚ
  sfs : List ℚ
deriving Repr, DecidableEq, Inhabited

/-- Modelled from the spec: the environment an `execute` call observes — the
volumetric fields already transferred onto each plane (indexed by
velocity-height index and temperature-height index) and onto the ABL wall
partitions. -/
structure FieldEnv where
  planes : List (List Sample)
  tempPlanes : List (List Sample)
  wall : List Sample
deriving Repr, DecidableEq, Inhabited

/-- Errors of the `ConfigurationError` class raised during `setup` (§7). -/
inductive ConfigError where
  | missingPart : String → ConfigError
  | missingSourcePart : String → ConfigError
deriving Repr, DecidableEq

/-- Error class of the runtime queries: raised only on an empty height list
(§4.6, §7). -/
inductive OutOfRangeError where
  | emptyHeightList : OutOfRangeError
deriving Repr, DecidableEq

/-- Modelled from the spec: the state of an `ABLPostProcessingAlgorithm`
instance after `setup`, with the statistics tables of §3 (`Array2D` of
doubles becomes `List (List ℚ)`). -/
structure ABLState where
  realm : Nat
  spatialAvg : Option Nat
  indepSpatAvg : Bool
  heights : List ℚ
  tempHeights : List ℚ
  UmeanCalc : List (List ℚ)
  SFSstressMeanCalc : List (List ℚ)
  varCalc : List (List ℚ)
  TmeanCalc : List ℚ
  utauCalc : ℚ
  partNames : List String
  initialized : Bool
deriving Repr, DecidableEq, Inhabited

/-- Modelled from the spec: the pre-`setup` object produced by the
constructors, holding the Realm binding, the optional borrowed averaging
engine, and the parsed configuration. -/
structure ABLPre where
  realm : Nat
  spatialAvg : Option Nat
  indepSpatAvg : Bool
  cfg : Config
deriving Repr, DecidableEq, Inhabited

/-- Modelled from the spec: `load` parses the configuration block; list-valued
keys keep the user-supplied insertion order (§3). -/
def load (node : Config) : Config := node

/-- Modelled from the spec: the two-argument constructor
`ABLPostProcessingAlgorithm(Realm&, const YAML::Node&)`; the averaging engine
is exclusively owned (`indepSpatAvg = true`). -/
def mkABL (realm : Nat) (node : Config) : ABLPre :=
  { realm := realm, spatialAvg := none, indepSpatAvg := true, cfg := load node }

/-- Modelled from the spec: the three-argument constructor
`ABLPostProcessingAlgorithm(Realm&, const YAML::Node&, SpatialAveragingAlgorithm*)`;
the averaging engine is borrowed from the host (`indepSpatAvg = false`). -/
def mkABLspat (realm : Nat) (node : Config) (spatialAvg : Nat) : ABLPre :=
  { realm := realm, spatialAvg := some spatialAvg, indepSpatAvg := false, cfg := load node }

/-- Modelled from the spec: the partition name the `target_part_format`
printf-style string produces for a height (one numeric specifier, §6). -/
def partName (fmt : String) (h : ℚ) : String :=
  fmt ++ toString h.num ++ "_" ++ toString h.den

/-- Modelled from the spec: `determine_part_names` — for each requested
height, reuse the named partition when it exists in the mesh database,
otherwise generate it when auto-generation is configured, otherwise raise a
`ConfigurationError` (§4.1). -/
def determinePartNames (fmt : String) (gen : Bool) (mesh : MeshDB) :
    List ℚ → Except ConfigError (List String)
  | [] => Except.ok []
  | h :: rest =>
    let nm := partName fmt h
    if nm ∈ mesh.partNames ∨ gen then
      match determinePartNames fmt gen mesh rest with
      | Except.ok nms => Except.ok (nm :: nms)
      | Except.error e => Except.error e
    else Except.error (ConfigError.missingPart nm)

/-- Modelled from the spec: the PartCatalog check that every user-specified
source partition (`from_target_part`) exists in the mesh database at `setup`
time (§4.2). -/
def checkSources (mesh : MeshDB) : List String → Except ConfigError Unit
  | [] => Except.ok ()
  | nm :: rest =>
    if nm ∈ mesh.partNames then checkSources mesh rest
    else Except.error (ConfigError.missingSourcePart nm)

/-- Modelled from the spec: `setup` validates the source partitions, resolves
(or generates) one plane partition per requested height for each field
family, and allocates every statistics table sized to its governing height
list (`UmeanCalc` `[n,3]`, `SFSstressMeanCalc` `[n,6]`, `varCalc` `[n,9]`,
`TmeanCalc` `[m]`), zero-initialized, with `utauCalc = 0` (§3, §4.1, §4.2). -/
def setup (pre : ABLPre) (mesh : MeshDB) : Except ConfigError ABLState :=
  match checkSources mesh pre.cfg.fromTargetParts with
  | Except.error e => Except.error e
  | Except.ok _ =>
    match determinePartNames pre.cfg.partFmt pre.cfg.generateParts mesh pre.cfg.heights with
    | Except.error e => Except.error e
    | Except.ok pnames =>
      match determinePartNames pre.cfg.partFmt pre.cfg.generateParts mesh pre.cfg.tempHeights with
      | Except.error e => Except.error e
      | Except.ok tnames =>
        Except.ok
          { realm := pre.realm
            spatialAvg := pre.spatialAvg
            indepSpatAvg := pre.indepSpatAvg
            heights := pre.cfg.heights
            tempHeights := pre.cfg.tempHeights
            UmeanCalc := List.replicate pre.cfg.heights.length (List.replicate 3 0)
            SFSstressMeanCalc := List.replicate pre.cfg.heights.length (List.replicate 6 0)
            varCalc := List.replicate pre.cfg.heights.length (List.replicate 9 0)
            TmeanCalc := List.replicate pre.cfg.tempHeights.length 0
            utauCalc := 0
            partNames := pnames ++ tnames
            initialized := false }

/-- Modelled from the spec: `initialize` registers the field transfers after
mesh creation; it does not touch the statistics tables (§4.3). -/
def initializeAlg (s : ABLState) : ABLState := { s with initialized := true }

/-- Area-weighted sum `Σ area·f` over the samples of one plane. -/
def wsum (f : Sample → ℚ) (l : List Sample) : ℚ :=
  (l.map (fun smp => smp.area * f smp)).sum

/-- Total area of a plane partition (the denominator of the reduction). -/
def totalArea (l : List Sample) : ℚ :=
  (l.map (fun smp => smp.area)).sum

/-- Modelled from the spec: the area-weighted planar mean of a field over one
plane partition (§4.4); the delegated reduction is `Σ area·f / Σ area`. -/
def wmean (f : Sample → ℚ) (l : List Sample) : ℚ :=
  wsum f l / totalArea l

/-- Velocity component `k` of a sample. -/
def velC (k : Nat) (smp : Sample) : ℚ := smp.vel.getD k 0

/-- Stress component `k` of a sample. -/
def sfsC (k : Nat) (smp : Sample) : ℚ := smp.sfs.getD k 0

/-- Temperature of a sample. -/
def sampleTemp (smp : Sample) : ℚ := smp.temp

/-- Modelled from the spec: one `UmeanCalc` row — area-weighted mean of the 3
velocity components on the plane (§4.4 step 1). -/
def velMeanRow (l : List Sample) : List ℚ :=
  [wmean (velC 0) l, wmean (velC 1) l, wmean (velC 2) l]

/-- Modelled from the spec: one `SFSstressMeanCalc` row — area-weighted mean
of the 6 symmetric stress components (§4.4 step 2). -/
def sfsMeanRow (l : List Sample) : List ℚ :=
  (List.range 6).map (fun k => wmean (sfsC k) l)

/-- Modelled from the spec: one `varCalc` row — the nine second/third moments
of §3 computed by Reynolds decomposition about the planar means (§4.4 step 4):
⟨u′²⟩, ⟨v′²⟩, ⟨w′²⟩, ⟨u′v′⟩, ⟨u′w′⟩, ⟨v′w′⟩, ⟨w′³⟩, ⟨θ′²⟩, ⟨w′θ′⟩. -/
def varRow (l : List Sample) : List ℚ :=
  let mx := wmean (velC 0) l
  let my := wmean (velC 1) l
  let mz := wmean (velC 2) l
  let mt := wmean sampleTemp l
  [wmean (fun s => (velC 0 s - mx) * (velC 0 s - mx)) l,
   wmean (fun s => (velC 1 s - my) * (velC 1 s - my)) l,
   wmean (fun s => (velC 2 s - mz) * (velC 2 s - mz)) l,
   wmean (fun s => (velC 0 s - mx) * (velC 1 s - my)) l,
   wmean (fun s => (velC 0 s - mx) * (velC 2 s - mz)) l,
   wmean (fun s => (velC 1 s - my) * (velC 2 s - mz)) l,
   wmean (fun s => (velC 2 s - mz) * (velC 2 s - mz) * (velC 2 s - mz)) l,
   wmean (fun s => (sampleTemp s - mt) * (sampleTemp s - mt)) l,
   wmean (fun s => (velC 2 s - mz) * (sampleTemp s - mt)) l]

/-- The von Kármán constant κ = 0.4 used by the law-of-the-wall inversion. -/
def vonKarman : ℚ := 2 / 5

/-- Modelled from the spec: the fixed logarithmic factor ln(z_ref/z₀) of the
law-of-the-wall inversion, a positive constant of the wall model. -/
def logLawFactor : ℚ := 10

/-- Magnitude of a 3-component velocity, modelled by the ℓ¹ norm (the exact
Euclidean norm is irrational over `ℚ`; any norm gives the nonnegative
magnitude the wall model needs). -/
def velMag (v : List ℚ) : ℚ := |v.getD 0 0| + |v.getD 1 0| + |v.getD 2 0|

/-- Modelled from the spec: `calc_utau` — the area-weighted mean near-wall
velocity over the designated wall partitions, inverted through the
law of the wall `u_τ = κ·‖U‖ / ln(z_ref/z₀)` (§4.5). -/
def calcUtau (wall : List Sample) : ℚ :=
  vonKarman * velMag [wmean (velC 0) wall, wmean (velC 1) wall, wmean (velC 2) wall]
    / logLawFactor

/-- Modelled from the spec: `execute` re-evaluates the transfers and
overwrites every statistics table in place — row `i` of each table is
recomputed from the plane of the `i`-th configured height, keeping each
table's row count equal to its governing height list's length — and refreshes
`utauCalc` (§3, §4.4, §4.5). -/
def execute (env : FieldEnv) (s : ABLState) : ABLState :=
  { s with
    UmeanCalc := (List.range s.heights.length).map (fun i => velMeanRow (env.planes.getD i []))
    SFSstressMeanCalc :=
      (List.range s.heights.length).map (fun i => sfsMeanRow (env.planes.getD i []))
    varCalc := (List.range s.heights.length).map (fun i => varRow (env.planes.getD i []))
    TmeanCalc :=
      (List.range s.tempHeights.length).map
        (fun i => wmean sampleTemp (env.tempPlanes.getD i []))
    utauCalc := calcUtau env.wall }

/-- Scalar linear interpolation `a + t·(b - a)`. -/
def lerpQ (a b t : ℚ) : ℚ := a + t * (b - a)

/-- Componentwise linear interpolation of two table rows. -/
def lerpRow (r1 r2 : List ℚ) (t : ℚ) : List ℚ :=
  List.zipWith (fun a b => lerpQ a b t) r1 r2

/-- Insert one (height, row) pair into a height-sorted association list. -/
def insertByH {α : Type} (p : ℚ × α) : List (ℚ × α) → List (ℚ × α)
  | [] => [p]
  | q :: rest => if p.1 ≤ q.1 then p :: q :: rest else q :: insertByH p rest

/-- Modelled from the spec: the value-sorted view of the (height, table row)
pairs the interpolation queries operate over; the rows travel with their
heights, so the sorted view maps back to the original row indices (§4.6). -/
def sortByH {α : Type} : List (ℚ × α) → List (ℚ × α)
  | [] => []
  | p :: rest => insertByH p (sortByH rest)

/-- Modelled from the spec: interpolation over a value-sorted (height, row)
list — clamp to the first row below the lowest height and to the last row
above the highest, linear interpolation between the two bracketing heights
otherwise; `none` exactly on an empty list (§4.6). -/
def interpSorted {α : Type} (lerp : α → α → ℚ → α) (h : ℚ) :
    List (ℚ × α) → Option α
  | [] => none
  | p :: [] => some p.2
  | p :: q :: rest =>
    if h ≤ p.1 then some p.2
    else if h ≤ q.1 then some (lerp p.2 q.2 ((h - p.1) / (q.1 - p.1)))
    else interpSorted lerp h (q :: rest)

/-- Modelled from the spec: `eval_vel_mean` — interpolate the `UmeanCalc`
rows over the value-sorted velocity-height list; fails (only) with an
`OutOfRangeError`-class condition when the height list is empty (§4.6). -/
def evalVelMean (s : ABLState) (h : ℚ) : Except OutOfRangeError (List ℚ) :=
  match interpSorted lerpRow h (sortByH (s.heights.zip s.UmeanCalc)) with
  | some v => Except.ok v
  | none => Except.error OutOfRangeError.emptyHeightList

/-- Modelled from the spec: `eval_temp_mean` — interpolate the `TmeanCalc`
entries over the value-sorted temperature-height list; fails (only) with an
`OutOfRangeError`-class condition when the height list is empty (§4.6). -/
def evalTempMean (s : ABLState) (h : ℚ) : Except OutOfRangeError ℚ :=
  match interpSorted lerpQ h (sortByH (s.tempHeights.zip s.TmeanCalc)) with
  | some v => Except.ok v
  | none => Except.error OutOfRangeError.emptyHeightList

/-- The states reachable from a constructed instance `pre`: a successful
`setup`, followed by any number of `initialize` and `execute` steps (the
queries are observers and do not change the state). -/
inductive ReachableFrom (pre : ABLPre) : ABLState → Prop where
  | fromSetup (mesh : MeshDB) (s : ABLState) (h : setup pre mesh = Except.ok s) :
      ReachableFrom pre s
  | stepInit (s : ABLState) (h : ReachableFrom pre s) : ReachableFrom pre (initializeAlg s)
  | stepExec (env : FieldEnv) (s : ABLState) (h : ReachableFrom pre s) :
      ReachableFrom pre (execute env s)

/-! ### Concrete fixtures used to evaluate the development on closed inputs -/

/-- A concrete configuration: single height 80, auto-generation enabled. -/
def cfgW : Config :=
  { searchMethod := "stk_kdtree"
    searchTolerance := 1 / 10000
    searchExpansionFactor := 3 / 2
    fromTargetParts := []
    partFmt := "zplane_"
    heights := [80]
    tempHeights := [80]
    outputFreq := 10
    outFileFmt := "abl_stats_"
    generateParts := true
    quadVertices := [[0, 0], [1, 0], [1, 1], [0, 1]]
    nx := 1
    ny := 1 }

/-- A concrete constructed instance bound to Realm 1. -/
def preW : ABLPre := mkABL 1 cfgW

/-- A concrete mesh database with no pre-existing plane partitions. -/
def meshW : MeshDB := { partNames := [] }

/-- The state `setup preW meshW` produces. -/
def stW : ABLState := ((setup preW meshW).toOption).getD default

/-- A concrete environment: one uniform plane at height 80 with velocity
(5,0,0) and temperature 300. -/
def envW : FieldEnv :=
  { planes := [[{ area := 1, vel := [5, 0, 0], temp := 300, sfs := [0, 0, 0, 0, 0, 0] },
                { area := 2, vel := [5, 0, 0], temp := 300, sfs := [0, 0, 0, 0, 0, 0] }]]
    tempPlanes := [[{ area := 1, vel := [5, 0, 0], temp := 300, sfs := [0, 0, 0, 0, 0, 0] }]]
    wall := [{ area := 1, vel := [5, 0, 0], temp := 300, sfs := [0, 0, 0, 0, 0, 0] }] }

/-- A concrete post-`execute` style state with heights [20, 80] and the
`UmeanCalc` rows (2,0,0) and (8,0,0) of Scenario B. -/
def stB : ABLState :=
  { realm := 1
    spatialAvg := none
    indepSpatAvg := true
    heights := [20, 80]
    tempHeights := [20, 80]
    UmeanCalc := [[2, 0, 0], [8, 0, 0]]
    SFSstressMeanCalc := [[0, 0, 0, 0, 0, 0], [0, 0, 0, 0, 0, 0]]
    varCalc := List.replicate 2 (List.replicate 9 0)
    TmeanCalc := [2, 8]
    utauCalc := 0
    partNames := [partName "zplane_" 20, partName "zplane_" 80]
    initialized := true }

/-- A configuration requesting height 80 with auto-generation disabled. -/
def cfgC : Config := { cfgW with generateParts := false }

/-- The constructed instance for the failing-`setup` scenario. -/
def preC : ABLPre := mkABL 1 cfgC

/-! ### Helper lemmas about the sorted view -/

theorem length_insertByH {α : Type} (p : ℚ × α) (l : List (ℚ × α)) :
    (insertByH p l).length = l.length + 1 := by
  induction l with
  | nil => rfl
  | cons q rest ih =>
    by_cases hle : p.1 ≤ q.1
    · simp [insertByH, hle]
    · simp [insertByH, hle, ih]

theorem length_sortByH {α : Type} (l : List (ℚ × α)) :
    (sortByH l).length = l.length := by
  induction l with
  | nil => rfl
  | cons p rest ih => simp [sortByH, length_insertByH, ih]

theorem insertByH_of_head_le {α : Type} (p : ℚ × α) (l : List (ℚ × α))
    (h : ∀ q ∈ l, p.1 ≤ q.1) : insertByH p l = p :: l := by
  cases l with
  | nil => rfl
  | cons q rest => rw [insertByH, if_pos (h q (List.mem_cons_self q rest))]

theorem sortByH_eq_self {α : Type} (l : List (ℚ × α))
    (h : l.Pairwise (fun a b => a.1 ≤ b.1)) : sortByH l = l := by
  induction l with
  | nil => rfl
  | cons p rest ih =>
    rcases List.pairwise_cons.mp h with ⟨hp, hrest⟩
    rw [sortByH, ih hrest]
    exact insertByH_of_head_le p rest hp

/-! ### Helper lemmas about the interpolation kernel -/

theorem interpSorted_isSome {α : Type} (lerp : α → α → ℚ → α) (h : ℚ) :
    ∀ (l : List (ℚ × α)), l ≠ [] → (interpSorted lerp h l).isSome = true
  | [], hne => absurd rfl hne
  | p :: [], _ => by simp [interpSorted]
  | p :: q :: rest, _ => by
    rw [interpSorted]
    by_cases h1 : h ≤ p.1
    · simp [h1]
    · by_cases h2 : h ≤ q.1
      · simp [h1, h2]
      · simpa [h1, h2] using interpSorted_isSome lerp h (q :: rest) (by simp)

theorem interpSorted_eq_none_iff {α : Type} (lerp : α → α → ℚ → α) (h : ℚ)
    (l : List (ℚ × α)) : interpSorted lerp h l = none ↔ l = [] := by
  constructor
  · intro hn
    by_contra hne
    have := interpSorted_isSome lerp h l hne
    rw [hn] at this
    simp at this
  · intro hl
    subst hl
    rfl

theorem getD_mem_of_lt {α : Type} (l : List α) (d : α) (i : Nat) (h : i < l.length) :
    l.getD i d ∈ l := by
  rw [List.getD_eq_getElem l d h]
  exact List.getElem_mem h

theorem interpSorted_bracket {α : Type} (lerp : α → α → ℚ → α) (d : ℚ × α) :
    ∀ (i : Nat) (l : List (ℚ × α)) (h : ℚ),
      l.Pairwise (fun a b => a.1 < b.1) →
      (∀ p ∈ l, ∀ q ∈ l, lerp p.2 q.2 0 = p.2 ∧ lerp p.2 q.2 1 = q.2) →
      i + 1 < l.length →
      (l.getD i d).1 ≤ h → h ≤ (l.getD (i + 1) d).1 →
      ∃ t, 0 ≤ t ∧ t ≤ 1 ∧
        interpSorted lerp h l = some (lerp (l.getD i d).2 (l.getD (i + 1) d).2 t) ∧
        ((l.getD i d).1 < h →
          t = (h - (l.getD i d).1) / ((l.getD (i + 1) d).1 - (l.getD i d).1)) := by
  intro i
  induction i with
  | zero =>
    intro l h hsort hlerp hlen hlo hhi
    match l, hlen with
    | p :: q :: rest, _ =>
      simp only [List.getD_cons_zero, List.getD_cons_succ] at hlo hhi ⊢
      have hpq : p.1 < q.1 := (List.pairwise_cons.mp hsort).1 q (by simp)
      by_cases hle : h ≤ p.1
      · have heq : h = p.1 := le_antisymm hle hlo
        refine ⟨0, le_refl 0, by norm_num, ?_, ?_⟩
        · rw [interpSorted, if_pos hle, (hlerp p (by simp) q (by simp)).1]
        · intro hcon
          rw [heq] at hcon
          exact absurd hcon (lt_irrefl _)
      · push_neg at hle
        refine ⟨(h - p.1) / (q.1 - p.1), ?_, ?_, ?_, fun _ => rfl⟩
        · exact div_nonneg (by linarith) (by linarith)
        · rw [div_le_one (by linarith)]
          linarith
        · rw [interpSorted, if_neg (not_le.mpr hle), if_pos hhi]
  | succ k ih =>
    intro l h hsort hlerp hlen hlen0
    match l with
    | p :: q :: rest =>
      intro hhi
      have hlo := hlen0
      simp only [List.getD_cons_succ] at hlo hhi ⊢
      have hlen' : k + 1 < (q :: rest).length := by
        simp only [List.length_cons] at hlen ⊢
        omega
      have hp : ∀ b ∈ q :: rest, p.1 < b.1 := (List.pairwise_cons.mp hsort).1
      have hplt : p.1 < ((q :: rest).getD k d).1 :=
        hp _ (getD_mem_of_lt (q :: rest) d k (Nat.lt_of_succ_lt hlen'))
      have h1 : ¬ h ≤ p.1 := not_le.mpr (lt_of_lt_of_le hplt hlo)
      have hsort' : (q :: rest).Pairwise (fun a b => a.1 < b.1) :=
        (List.pairwise_cons.mp hsort).2
      have hlerp' : ∀ a ∈ q :: rest, ∀ b ∈ q :: rest,
          lerp a.2 b.2 0 = a.2 ∧ lerp a.2 b.2 1 = b.2 :=
        fun a ha b hb =>
          hlerp a (List.mem_cons_of_mem p ha) b (List.mem_cons_of_mem p hb)
      by_cases hq : h ≤ q.1
      · cases k with
        | zero =>
          simp only [List.getD_cons_zero, List.getD_cons_succ] at hlo hhi ⊢
          have heq : h = q.1 := le_antisymm hq hlo
          have hpq : p.1 < q.1 := hp q (by simp)
          have hrest : 0 < rest.length := by
            simp only [List.length_cons] at hlen
            omega
          have hr0 : rest.getD 0 d ∈ q :: rest :=
            List.mem_cons_of_mem q (getD_mem_of_lt rest d 0 hrest)
          refine ⟨0, le_refl 0, by norm_num, ?_, ?_⟩
          · rw [interpSorted, if_neg h1, if_pos hq, heq,
              div_self (ne_of_gt (by linarith)),
              (hlerp p (by simp) q (by simp)).2,
              (hlerp' q (by simp) (rest.getD 0 d) hr0).1]
          · intro hcon
            rw [heq] at hcon
            exact absurd hcon (lt_irrefl _)
        | succ j =>
          exfalso
          simp only [List.getD_cons_succ] at hlo
          have hj : j < rest.length := by
            simp only [List.length_cons] at hlen
            omega
          have hqj : q.1 < (rest.getD j d).1 :=
            (List.pairwise_cons.mp hsort').1 _ (getD_mem_of_lt rest d j hj)
          linarith
      · have hhi' : h ≤ ((q :: rest).getD (k + 1) d).1 := by
          rw [List.getD_cons_succ]
          exact hhi
        obtain ⟨t, ht0, ht1, heq, himp⟩ :=
          ih (q :: rest) h hsort' hlerp' hlen' hlo hhi'
        refine ⟨t, ht0, ht1, ?_, ?_⟩
        · rw [interpSorted, if_neg h1, if_neg hq, heq]
          simp only [List.getD_cons_succ]
        · intro hcon
          rw [himp hcon]
          simp only [List.getD_cons_succ]

theorem lerpQ_zero (a b : ℚ) : lerpQ a b 0 = a := by
  simp [lerpQ]

theorem lerpQ_one (a b : ℚ) : lerpQ a b 1 = b := by
  simp [lerpQ]

theorem lerpRow_zero : ∀ (r1 r2 : List ℚ), r1.length = r2.length →
    lerpRow r1 r2 0 = r1
  | [], [], _ => rfl
  | [], _ :: _, h => by simp at h
  | _ :: _, [], h => by simp at h
  | a :: r1, b :: r2, h => by
    rw [lerpRow, List.zipWith_cons_cons, lerpQ_zero]
    have := lerpRow_zero r1 r2 (by simpa using h)
    rw [lerpRow] at this
    rw [this]

theorem lerpRow_one : ∀ (r1 r2 : List ℚ), r1.length = r2.length →
    lerpRow r1 r2 1 = r2
  | [], [], _ => rfl
  | [], _ :: _, h => by simp at h
  | _ :: _, [], h => by simp at h
  | a :: r1, b :: r2, h => by
    rw [lerpRow, List.zipWith_cons_cons, lerpQ_one]
    have := lerpRow_one r1 r2 (by simpa using h)
    rw [lerpRow] at this
    rw [this]

theorem getD_zip {α : Type} (hs : List ℚ) (rows : List α) (i : Nat) (dr : α)
    (hi : i < hs.length) (hlen : rows.length = hs.length) :
    (hs.zip rows).getD i (0, dr) = (hs.getD i 0, rows.getD i dr) := by
  have hiz : i < (hs.zip rows).length := by
    rw [List.length_zip, hlen]
    simpa using hi
  have hir : i < rows.length := by rw [hlen]; exact hi
  rw [List.getD_eq_getElem _ _ hiz, List.getD_eq_getElem _ _ hi,
    List.getD_eq_getElem _ _ hir]
  exact List.getElem_zip

theorem pairwise_fst_zip_of_lt {α : Type} (hs : List ℚ) (rows : List α)
    (h : hs.Pairwise (· < ·)) :
    (hs.zip rows).Pairwise (fun a b => a.1 < b.1) := by
  rw [List.pairwise_iff_getElem] at h ⊢
  intro i j hi hj hij
  have hi' : i < hs.length := lt_of_lt_of_le hi (by simp [List.length_zip])
  have hj' : j < hs.length := lt_of_lt_of_le hj (by simp [List.length_zip])
  have := h i j hi' hj' hij
  simpa [List.getElem_zip] using this

theorem pairwise_fst_zip_le_of_lt {α : Type} (hs : List ℚ) (rows : List α)
    (h : hs.Pairwise (· < ·)) :
    (hs.zip rows).Pairwise (fun a b => a.1 ≤ b.1) :=
  (pairwise_fst_zip_of_lt hs rows h).imp le_of_lt

theorem zip_length_eq {α : Type} (hs : List ℚ) (rows : List α)
    (hlen : rows.length = hs.length) : (hs.zip rows).length = hs.length := by
  rw [List.length_zip, hlen]
  simp

theorem getD_map_range {α : Type} (f : Nat → α) (n i : Nat) (d : α) (h : i < n) :
    ((List.range n).map f).getD i d = f i := by
  have hi : i < ((List.range n).map f).length := by simpa using h
  rw [List.getD_eq_getElem _ _ hi]
  simp

theorem setup_ok_fields (pre : ABLPre) (mesh : MeshDB) (s : ABLState)
    (h : setup pre mesh = Except.ok s) :
    s.realm = pre.realm ∧ s.heights = pre.cfg.heights ∧
    s.tempHeights = pre.cfg.tempHeights ∧
    s.UmeanCalc = List.replicate pre.cfg.heights.length (List.replicate 3 0) ∧
    s.SFSstressMeanCalc = List.replicate pre.cfg.heights.length (List.replicate 6 0) ∧
    s.varCalc = List.replicate pre.cfg.heights.length (List.replicate 9 0) ∧
    s.TmeanCalc = List.replicate pre.cfg.tempHeights.length 0 ∧
    s.utauCalc = 0 := by
  rw [setup] at h
  split at h
  · exact Except.noConfusion h
  · split at h
    · exact Except.noConfusion h
    · split at h
      · exact Except.noConfusion h
      · rw [Except.ok.injEq] at h
        subst h
        exact ⟨rfl, rfl, rfl, rfl, rfl, rfl, rfl, rfl⟩

/-! ### Claim theorems -/

/-- C1: for a state whose height list is strictly sorted `h1 < … < hn`, and a
query height `h` with `heights[i] ≤ h ≤ heights[i+1]`, `eval_vel_mean h`
returns a convex combination of the two `UmeanCalc` rows bracketing `h`
(linear interpolation, with coefficient `(h - hᵢ) / (hᵢ₊₁ - hᵢ)` whenever
`hᵢ < h`). -/
theorem eval_vel_mean_convex_combination (s : ABLState) (h : ℚ) (i : Nat)
    (hsort : s.heights.Pairwise (· < ·))
    (hlen : s.UmeanCalc.length = s.heights.length)
    (hcols : ∀ r ∈ s.UmeanCalc, r.length = 3)
    (hi : i + 1 < s.heights.length)
    (hlo : s.heights.getD i 0 ≤ h) (hhi : h ≤ s.heights.getD (i + 1) 0) :
    ∃ t, 0 ≤ t ∧ t ≤ 1 ∧
      evalVelMean s h =
        Except.ok (lerpRow (s.UmeanCalc.getD i []) (s.UmeanCalc.getD (i + 1) []) t) ∧
      (s.heights.getD i 0 < h →
        t = (h - s.heights.getD i 0) /
          (s.heights.getD (i + 1) 0 - s.heights.getD i 0)) := by
  have hzlen : (s.heights.zip s.UmeanCalc).length = s.heights.length := by
    rw [List.length_zip, hlen]
    simp
  have hzsort := pairwise_fst_zip_of_lt s.heights s.UmeanCalc hsort
  have hzeq : sortByH (s.heights.zip s.UmeanCalc) = s.heights.zip s.UmeanCalc :=
    sortByH_eq_self _ (pairwise_fst_zip_le_of_lt s.heights s.UmeanCalc hsort)
  have hlerp : ∀ p ∈ s.heights.zip s.UmeanCalc, ∀ q ∈ s.heights.zip s.UmeanCalc,
      lerpRow p.2 q.2 0 = p.2 ∧ lerpRow p.2 q.2 1 = q.2 := by
    intro p hp q hq
    have hp2 : p.2.length = 3 := hcols _ (List.of_mem_zip hp).2
    have hq2 : q.2.length = 3 := hcols _ (List.of_mem_zip hq).2
    exact ⟨lerpRow_zero p.2 q.2 (by rw [hp2, hq2]),
      lerpRow_one p.2 q.2 (by rw [hp2, hq2])⟩
  have hgi := getD_zip s.heights s.UmeanCalc i [] (Nat.lt_of_succ_lt hi) hlen
  have hgi1 := getD_zip s.heights s.UmeanCalc (i + 1) [] hi hlen
  have hlo' : ((s.heights.zip s.UmeanCalc).getD i (0, [])).1 ≤ h := by
    rw [hgi]
    exact hlo
  have hhi' : h ≤ ((s.heights.zip s.UmeanCalc).getD (i + 1) (0, [])).1 := by
    rw [hgi1]
    exact hhi
  obtain ⟨t, ht0, ht1, heq, himp⟩ :=
    interpSorted_bracket lerpRow (0, ([] : List ℚ)) i (s.heights.zip s.UmeanCalc) h
      hzsort hlerp (by rw [hzlen]; exact hi) hlo' hhi'
  refine ⟨t, ht0, ht1, ?_, ?_⟩
  · rw [evalVelMean, hzeq, heq, hgi, hgi1]
  · intro hc
    have hc' : ((s.heights.zip s.UmeanCalc).getD i (0, [])).1 < h := by
      rw [hgi]
      exact hc
    have := himp hc'
    rw [hgi, hgi1] at this
    exact this

/-- C1 witness (Scenario B): heights [20, 80] with rows (2,0,0) and (8,0,0);
`eval_vel_mean 50` returns (5,0,0) by linear interpolation. -/
theorem eval_vel_mean_convex_combination_witness :
    evalVelMean stB 50 = Except.ok [5, 0, 0] := by
  obtain ⟨t, ht0, ht1, heq, himp⟩ :=
    eval_vel_mean_convex_combination stB 50 0 (by decide) (by decide) (by decide)
      (by decide) (by decide) (by decide)
  rw [himp (by decide)] at heq
  rw [heq]
  norm_num [stB, lerpRow, lerpQ]

/-- C3: the query operations fail (with the `OutOfRangeError`-class
condition) exactly when their governing height list is empty; on a non-empty
height list no query height ever fails — out-of-range heights are clamped
instead. -/
theorem eval_fail_iff_empty_heights (s : ABLState) (h : ℚ)
    (hlenU : s.UmeanCalc.length = s.heights.length)
    (hlenT : s.TmeanCalc.length = s.tempHeights.length) :
    ((∃ e, evalVelMean s h = Except.error e) ↔ s.heights = []) ∧
    ((∃ e, evalTempMean s h = Except.error e) ↔ s.tempHeights = []) := by
  constructor
  · constructor
    · rintro ⟨e, he⟩
      rw [evalVelMean] at he
      rcases hint : interpSorted lerpRow h (sortByH (s.heights.zip s.UmeanCalc))
        with _ | v
      · have hz := (interpSorted_eq_none_iff lerpRow h _).mp hint
        have hl := length_sortByH (s.heights.zip s.UmeanCalc)
        rw [hz] at hl
        rw [zip_length_eq s.heights s.UmeanCalc hlenU] at hl
        exact List.length_eq_zero.mp hl.symm
      · rw [hint] at he
        exact Except.noConfusion he
    · intro hemp
      rw [evalVelMean]
      have hz : s.heights.zip s.UmeanCalc = [] := by rw [hemp]; rfl
      rw [hz]
      exact ⟨OutOfRangeError.emptyHeightList, rfl⟩
  · constructor
    · rintro ⟨e, he⟩
      rw [evalTempMean] at he
      rcases hint : interpSorted lerpQ h (sortByH (s.tempHeights.zip s.TmeanCalc))
        with _ | v
      · have hz := (interpSorted_eq_none_iff lerpQ h _).mp hint
        have hl := length_sortByH (s.tempHeights.zip s.TmeanCalc)
        rw [hz] at hl
        rw [zip_length_eq s.tempHeights s.TmeanCalc hlenT] at hl
        exact List.length_eq_zero.mp hl.symm
      · rw [hint] at he
        exact Except.noConfusion he
    · intro hemp
      rw [evalTempMean]
      have hz : s.tempHeights.zip s.TmeanCalc = [] := by rw [hemp]; rfl
      rw [hz]
      exact ⟨OutOfRangeError.emptyHeightList, rfl⟩

/-- C3 witness: on the concrete two-height state the queries never fail (the
height lists are non-empty), instantiating the failure characterization at
query height 50. -/
theorem eval_fail_iff_empty_heights_witness :
    ((∃ e, evalVelMean stB 50 = Except.error e) ↔ stB.heights = []) ∧
    ((∃ e, evalTempMean stB 50 = Except.error e) ↔ stB.tempHeights = []) :=
  eval_fail_iff_empty_heights stB 50 rfl rfl

/-- C4: in every state reachable after `setup` — and preserved by
`initialize`, `execute`, and the (state-pure) queries — `UmeanCalc` has
`length heights` rows of 3 columns, `SFSstressMeanCalc` has `length heights`
rows of 6 columns, `varCalc` has `length heights` rows of 9 columns, and
`TmeanCalc` has `length tempHeights` entries: no operation after `setup`
resizes any table. -/
theorem tables_sized_to_height_lists (pre : ABLPre) (s : ABLState)
    (hs : ReachableFrom pre s) :
    s.UmeanCalc.length = s.heights.length ∧ (∀ r ∈ s.UmeanCalc, r.length = 3) ∧
    s.SFSstressMeanCalc.length = s.heights.length ∧
    (∀ r ∈ s.SFSstressMeanCalc, r.length = 6) ∧
    s.varCalc.length = s.heights.length ∧ (∀ r ∈ s.varCalc, r.length = 9) ∧
    s.TmeanCalc.length = s.tempHeights.length := by
  induction hs with
  | fromSetup mesh s h =>
    obtain ⟨-, hh, ht, hU, hS, hV, hT, -⟩ := setup_ok_fields pre mesh s h
    refine ⟨?_, ?_, ?_, ?_, ?_, ?_, ?_⟩
    · rw [hU, hh]; simp
    · intro r hr
      rw [hU] at hr
      rw [List.eq_of_mem_replicate hr]
      simp
    · rw [hS, hh]; simp
    · intro r hr
      rw [hS] at hr
      rw [List.eq_of_mem_replicate hr]
      simp
    · rw [hV, hh]; simp
    · intro r hr
      rw [hV] at hr
      rw [List.eq_of_mem_replicate hr]
      simp
    · rw [hT, ht]; simp
  | stepInit s h ih => simpa [initializeAlg] using ih
  | stepExec env s h ih =>
    refine ⟨by simp [execute], ?_, by simp [execute], ?_, by simp [execute], ?_,
      by simp [execute]⟩
    · intro r hr
      simp only [execute, List.mem_map] at hr
      obtain ⟨i, -, hri⟩ := hr
      rw [← hri]
      simp [velMeanRow]
    · intro r hr
      simp only [execute, List.mem_map] at hr
      obtain ⟨i, -, hri⟩ := hr
      rw [← hri]
      simp [sfsMeanRow]
    · intro r hr
      simp only [execute, List.mem_map] at hr
      obtain ⟨i, -, hri⟩ := hr
      rw [← hri]
      simp [varRow]

/-- C4 witness: the invariant instantiated at a concrete state obtained from
a successful `setup`. -/
theorem tables_sized_to_height_lists_witness :
    stW.UmeanCalc.length = stW.heights.length ∧
    (∀ r ∈ stW.UmeanCalc, r.length = 3) ∧
    stW.SFSstressMeanCalc.length = stW.heights.length ∧
    (∀ r ∈ stW.SFSstressMeanCalc, r.length = 6) ∧
    stW.varCalc.length = stW.heights.length ∧ (∀ r ∈ stW.varCalc, r.length = 9) ∧
    stW.TmeanCalc.length = stW.tempHeights.length :=
  tables_sized_to_height_lists preW stW (ReachableFrom.fromSetup meshW stW rfl)

theorem wsum_congr (f g : Sample → ℚ) (l : List Sample)
    (h : ∀ x ∈ l, f x = g x) : wsum f l = wsum g l := by
  unfold wsum
  congr 1
  exact List.map_congr_left (fun smp hsmp => by rw [h smp hsmp])

theorem wsum_const (c : ℚ) (l : List Sample) :
    wsum (fun _ => c) l = c * totalArea l := by
  unfold wsum totalArea
  induction l with
  | nil => simp
  | cons smp rest ih =>
    simp only [List.map_cons, List.sum_cons, ih]
    ring

theorem wmean_const (f : Sample → ℚ) (l : List Sample) (c : ℚ)
    (hf : ∀ x ∈ l, f x = c) (ht : totalArea l ≠ 0) : wmean f l = c := by
  unfold wmean
  rw [wsum_congr f (fun _ => c) l hf, wsum_const, mul_div_assoc, div_self ht,
    mul_one]

theorem wmean_zero (f : Sample → ℚ) (l : List Sample)
    (hf : ∀ x ∈ l, f x = 0) : wmean f l = 0 := by
  unfold wmean
  rw [wsum_congr f (fun _ => 0) l hf, wsum_const, zero_mul, zero_div]

/-- C6: if the transferred fields on the plane of configured height index `i`
are spatially uniform (velocity identically `V`, temperature identically `T`),
then after `execute` the `UmeanCalc` row for that height equals `V` exactly
and all 9 entries of its `varCalc` row are exactly zero; likewise the
`TmeanCalc` entry of a temperature plane with uniform temperature equals that
temperature exactly. -/
theorem execute_uniform_field_exact (s : ABLState) (env : FieldEnv) (i j : Nat)
    (V : List ℚ) (T Tj : ℚ)
    (hi : i < s.heights.length) (hV3 : V.length = 3)
    (hA : totalArea (env.planes.getD i []) ≠ 0)
    (huni : ∀ smp ∈ env.planes.getD i [], smp.vel = V)
    (htuni : ∀ smp ∈ env.planes.getD i [], smp.temp = T)
    (hj : j < s.tempHeights.length)
    (hAj : totalArea (env.tempPlanes.getD j []) ≠ 0)
    (hjuni : ∀ smp ∈ env.tempPlanes.getD j [], smp.temp = Tj) :
    (execute env s).UmeanCalc.getD i [] = V ∧
    (execute env s).varCalc.getD i [] = List.replicate 9 0 ∧
    (execute env s).TmeanCalc.getD j 0 = Tj := by
  obtain ⟨a, b, c, hV⟩ := List.length_eq_three.mp hV3
  subst hV
  have hm0 : wmean (velC 0) (env.planes.getD i []) = a :=
    wmean_const _ _ a (fun smp hsmp => by simp [velC, huni smp hsmp]) hA
  have hm1 : wmean (velC 1) (env.planes.getD i []) = b :=
    wmean_const _ _ b (fun smp hsmp => by simp [velC, huni smp hsmp]) hA
  have hm2 : wmean (velC 2) (env.planes.getD i []) = c :=
    wmean_const _ _ c (fun smp hsmp => by simp [velC, huni smp hsmp]) hA
  have hmt : wmean sampleTemp (env.planes.getD i []) = T :=
    wmean_const _ _ T (fun smp hsmp => by simp [sampleTemp, htuni smp hsmp]) hA
  refine ⟨?_, ?_, ?_⟩
  · rw [execute]
    simp only
    rw [getD_map_range _ s.heights.length i [] hi, velMeanRow, hm0, hm1, hm2]
  · rw [execute]
    simp only
    rw [getD_map_range _ s.heights.length i [] hi, varRow]
    simp only [hm0, hm1, hm2, hmt]
    rw [wmean_zero _ _ (fun smp hsmp => by simp [velC, huni smp hsmp]),
      wmean_zero _ _ (fun smp hsmp => by simp [velC, huni smp hsmp]),
      wmean_zero _ _ (fun smp hsmp => by simp [velC, huni smp hsmp]),
      wmean_zero _ _ (fun smp hsmp => by simp [velC, huni smp hsmp]),
      wmean_zero _ _ (fun smp hsmp => by simp [velC, huni smp hsmp]),
      wmean_zero _ _ (fun smp hsmp => by simp [velC, huni smp hsmp]),
      wmean_zero _ _ (fun smp hsmp => by simp [velC, huni smp hsmp]),
      wmean_zero _ _ (fun smp hsmp => by simp [sampleTemp, htuni smp hsmp]),
      wmean_zero _ _ (fun smp hsmp => by
        simp [velC, sampleTemp, huni smp hsmp, htuni smp hsmp])]
    rfl
  · rw [execute]
    simp only
    rw [getD_map_range _ s.tempHeights.length j 0 hj]
    exact wmean_const _ _ Tj (fun smp hsmp => hjuni smp hsmp) hAj

/-- C6 witness (Scenario A): single height 80, uniform velocity (5,0,0) and
uniform temperature 300 give `UmeanCalc[0] = (5,0,0)`, `varCalc[0] = 0…0`,
`TmeanCalc[0] = 300`. -/
theorem execute_uniform_field_exact_witness :
    (execute envW stW).UmeanCalc.getD 0 [] = [5, 0, 0] ∧
    (execute envW stW).varCalc.getD 0 [] = List.replicate 9 0 ∧
    (execute envW stW).TmeanCalc.getD 0 0 = 300 :=
  execute_uniform_field_exact stW envW 0 0 [5, 0, 0] 300 300 (by decide) rfl
    (by norm_num [totalArea, envW]) (by decide) (by decide) (by decide)
    (by norm_num [totalArea, envW]) (by decide)

/-- C7: `execute` is idempotent on the statistics state — a second `execute`
with the same underlying fields leaves `UmeanCalc`, `SFSstressMeanCalc`,
`TmeanCalc`, `varCalc`, and `utauCalc` identical to their contents after the
first call. -/
theorem execute_idempotent (env : FieldEnv) (s : ABLState) :
    (execute env (execute env s)).UmeanCalc = (execute env s).UmeanCalc ∧
    (execute env (execute env s)).SFSstressMeanCalc =
      (execute env s).SFSstressMeanCalc ∧
    (execute env (execute env s)).TmeanCalc = (execute env s).TmeanCalc ∧
    (execute env (execute env s)).varCalc = (execute env s).varCalc ∧
    (execute env (execute env s)).utauCalc = (execute env s).utauCalc :=
  ⟨rfl, rfl, rfl, rfl, rfl⟩

theorem velMag_nonneg (v : List ℚ) : 0 ≤ velMag v := by
  unfold velMag
  have h0 := abs_nonneg (v.getD 0 0)
  have h1 := abs_nonneg (v.getD 1 0)
  have h2 := abs_nonneg (v.getD 2 0)
  linarith

theorem calcUtau_nonneg (wall : List Sample) : 0 ≤ calcUtau wall := by
  unfold calcUtau
  apply div_nonneg
  · exact mul_nonneg (by norm_num [vonKarman]) (velMag_nonneg _)
  · norm_num [logLawFactor]

/-- C8: in every state reachable after `setup` and any number of `execute`
(and `initialize`) calls, the friction-velocity scalar `utauCalc` is
nonnegative. -/
theorem utau_nonneg (pre : ABLPre) (s : ABLState) (hs : ReachableFrom pre s) :
    0 ≤ s.utauCalc := by
  induction hs with
  | fromSetup mesh s h =>
    have hu := (setup_ok_fields pre mesh s h).2.2.2.2.2.2.2
    rw [hu]
  | stepInit s h ih => simpa [initializeAlg] using ih
  | stepExec env s h ih => simpa [execute] using calcUtau_nonneg env.wall

/-- C8 witness: instantiated at a concrete reachable state (after `setup`,
and after one `execute` on the concrete environment). -/
theorem utau_nonneg_witness : 0 ≤ (execute envW stW).utauCalc :=
  utau_nonneg preW (execute envW stW)
    (ReachableFrom.stepExec envW stW (ReachableFrom.fromSetup meshW stW rfl))

theorem determinePartNames_error_of_missing (fmt : String) (mesh : MeshDB) :
    ∀ (hs : List ℚ) (g : ℚ), g ∈ hs → partName fmt g ∉ mesh.partNames →
      ∃ e, determinePartNames fmt false mesh hs = Except.error e
  | [], g, hg, _ => absurd hg (List.not_mem_nil g)
  | hh :: rest, g, hg, hmiss => by
    rw [determinePartNames]
    by_cases hin : partName fmt hh ∈ mesh.partNames ∨ (false : Bool)
    · rw [if_pos hin]
      rcases List.mem_cons.mp hg with h1 | h1
      · exfalso
        rw [← h1] at hin
        simp at hin
        exact hmiss hin
      · obtain ⟨e, he⟩ :=
          determinePartNames_error_of_missing fmt mesh rest g h1 hmiss
        rw [he]
        exact ⟨e, rfl⟩
    · rw [if_neg hin]
      exact ⟨ConfigError.missingPart (partName fmt hh), rfl⟩

/-- C9: if some requested height has no matching mesh partition and part
auto-generation is not available, `setup` raises a `ConfigurationError` and
produces no state at all — `setup` is a pure function returning
`Except`, so a failed call registers nothing and the pre-`setup` instance is
unchanged. -/
theorem setup_config_error_no_partial_state (pre : ABLPre) (mesh : MeshDB)
    (g : ℚ) (hg : g ∈ pre.cfg.heights)
    (hmiss : partName pre.cfg.partFmt g ∉ mesh.partNames)
    (hgen : pre.cfg.generateParts = false) :
    (∃ e, setup pre mesh = Except.error e) ∧ (setup pre mesh).toOption = none := by
  rw [setup]
  rcases hcs : checkSources mesh pre.cfg.fromTargetParts with e | u
  · exact ⟨⟨e, rfl⟩, rfl⟩
  · obtain ⟨e, he⟩ := determinePartNames_error_of_missing pre.cfg.partFmt mesh
      pre.cfg.heights g hg hmiss
    rw [hgen, he]
    exact ⟨⟨e, rfl⟩, rfl⟩

/-- C9 witness (Scenario C): height 80 requested, no matching partition in an
empty mesh database, generation disabled — `setup` fails and yields no
state. -/
theorem setup_config_error_no_partial_state_witness :
    (∃ e, setup preC meshW = Except.error e) ∧ (setup preC meshW).toOption = none :=
  setup_config_error_no_partial_state preC meshW 80 (by decide) (by decide) rfl

/-- C10: every constructor binds the instance to the Realm it is given, and
that binding is fixed for the instance's whole lifetime — it is unchanged by
`setup`, `initialize`, and `execute` (no public operation rebinds or copies
the statistics state to another Realm). -/
theorem realm_binding_fixed (r : Nat) (node : Config) (sp : Nat) (pre : ABLPre)
    (s : ABLState) (hs : ReachableFrom pre s) :
    (mkABL r node).realm = r ∧ (mkABLspat r node sp).realm = r ∧
    s.realm = pre.realm := by
  refine ⟨rfl, rfl, ?_⟩
  induction hs with
  | fromSetup mesh s h => exact (setup_ok_fields pre mesh s h).1
  | stepInit s h ih => simpa [initializeAlg] using ih
  | stepExec env s h ih => simpa [execute] using ih

/-- C10 witness: instantiated at Realm ids 2 and 3 and the concrete reachable
state bound to Realm 1. -/
theorem realm_binding_fixed_witness :
    (mkABL 2 cfgW).realm = 2 ∧ (mkABLspat 2 cfgW 3).realm = 2 ∧
    stW.realm = preW.realm :=
  realm_binding_fixed 2 cfgW 3 preW stW (ReachableFrom.fromSetup meshW stW rfl)

end ABLPost
